import Mathlib

/-!
Verification of the layout-extraction and in-place-reconstruction engine of
the PaperRadar repository (backend/app/services/pdf_parser.py,
pdf_builder.py, block_classifier.py).

Conventions of the shallow embedding:
* page coordinates and areas are exact rationals; Python float arithmetic
  (whose constants 0.3, 0.05, ... are read here as the exact rationals
  3/10, 1/20, ...) is modelled by exact rational arithmetic;
* Python strings are Lean `String`; the unicode-aware character predicates
  of Python (`str.isalpha`, `str.isupper`) are modelled by the ASCII
  predicates `Char.isAlpha` / `Char.isUpper`; all concrete inputs used in
  the theorems below are chosen so that the two agree;
* fallible code paths (`return None`, skipped blocks) return `Option`,
  and the early-return style of the Python loops is rendered with
  `Option.bind`.
-/

/-- Axis-aligned rectangle `(x0, y0, x1, y1)` in the top-left-origin page
coordinate space used by the parser and the builder. -/
structure Rect where
  x0 : ℚ
  y0 : ℚ
  x1 : ℚ
  y1 : ℚ
deriving DecidableEq, Repr

/-- `(x1 - x0) * (y1 - y0)`, the signed area expression the Python code uses. -/
def rectArea (r : Rect) : ℚ := (r.x1 - r.x0) * (r.y1 - r.y0)

/-- Area of the intersection of two rectangles, zero when they do not
overlap (the Python code guards the product by `ix0 < ix1 and iy0 < iy1`). -/
def interArea (a z : Rect) : ℚ :=
  max 0 (min a.x1 z.x1 - max a.x0 z.x0) * max 0 (min a.y1 z.y1 - max a.y0 z.y0)

/-- One iteration of the `for zone in protected_zones` loop of
`PDFBuilder._clip_mask_around_protected`.  `maskArea` is the area of the
original mask, computed once before the loop in the Python code; `m` is the
current (possibly already trimmed) mask. -/
def clipStep (maskArea : ℚ) (m z : Rect) : Option Rect :=
  let ix0 := max m.x0 z.x0
  let iy0 := max m.y0 z.y0
  let ix1 := min m.x1 z.x1
  let iy1 := min m.y1 z.y1
  if ix0 < ix1 ∧ iy0 < iy1 then
    let overlap := (ix1 - ix0) * (iy1 - iy0)
    if overlap / maskArea > 3/10 then none
    else
      -- `if zy0 > y0 and zy0 < y1: y1 = zy0` (trim the bottom), then
      -- `if zy1 < y1 and zy1 > y0: y0 = zy1` (trim the top, tested against
      -- the already-updated y1)
      let ny1 := if z.y0 > m.y0 ∧ z.y0 < m.y1 then z.y0 else m.y1
      let ny0 := if z.y1 < ny1 ∧ z.y1 > m.y0 then z.y1 else m.y0
      some ⟨m.x0, ny0, m.x1, ny1⟩
  else some m

/-- The whole zone loop of `_clip_mask_around_protected`. -/
def clipLoop (maskArea : ℚ) (m : Rect) : List Rect → Option Rect
  | [] => some m
  | z :: zs => (clipStep maskArea m z).bind (fun m1 => clipLoop maskArea m1 zs)

/-- `PDFBuilder._clip_mask_around_protected`: returns the trimmed mask, or
`none` when the mask has non-positive area, overlaps a zone by more than
30% of the original mask area, or ends up less than 5 points high. -/
def clipMaskAroundProtected (mask : Rect) (zones : List Rect) : Option Rect :=
  let maskArea := rectArea mask
  if maskArea ≤ 0 then none
  else
    (clipLoop maskArea mask zones).bind
      (fun m => if m.y1 - m.y0 < 5 then none else some m)

-- sanity checks on concrete inputs (hand-evaluations of the Python loop)
example : clipMaskAroundProtected ⟨0, 0, 10, 100⟩ [⟨0, 80, 10, 200⟩] = some ⟨0, 0, 10, 80⟩ := by
  norm_num [clipMaskAroundProtected, clipLoop, clipStep, rectArea]
example : clipMaskAroundProtected ⟨0, 0, 10, 100⟩ [⟨0, 40, 10, 200⟩] = none := by
  norm_num [clipMaskAroundProtected, clipLoop, clipStep, rectArea]
example :
    clipMaskAroundProtected ⟨0, 0, 10, 100⟩ [⟨0, 80, 10, 200⟩, ⟨0, 50, 10, 300⟩] =
      some ⟨0, 0, 10, 50⟩ := by
  norm_num [clipMaskAroundProtected, clipLoop, clipStep, rectArea]

/-! ### Invariants of the clipping loop -/

/-- `a` is a vertical shrinking of `b`: same horizontal extent, vertical
extent contained in that of `b`. -/
def vertSub (a b : Rect) : Prop :=
  a.x0 = b.x0 ∧ a.x1 = b.x1 ∧ b.y0 ≤ a.y0 ∧ a.y1 ≤ b.y1

theorem vertSub_refl (a : Rect) : vertSub a a :=
  ⟨rfl, rfl, le_refl _, le_refl _⟩

theorem vertSub_trans {a b c : Rect} (h1 : vertSub a b) (h2 : vertSub b c) : vertSub a c :=
  ⟨h1.1.trans h2.1, h1.2.1.trans h2.2.1, h2.2.2.1.trans h1.2.2.1, h1.2.2.2.trans h2.2.2.2⟩

theorem interArea_nonneg (a z : Rect) : 0 ≤ interArea a z :=
  mul_nonneg (le_max_left _ _) (le_max_left _ _)

theorem interArea_mono {a b : Rect} (z : Rect) (h : vertSub a b) :
    interArea a z ≤ interArea b z := by
  obtain ⟨hx0, hx1, hy0, hy1⟩ := h
  unfold interArea
  rw [hx0, hx1]
  apply mul_le_mul_of_nonneg_left _ (le_max_left _ _)
  apply max_le (le_max_left _ _)
  apply le_max_of_le_right
  have h1 : min a.y1 z.y1 ≤ min b.y1 z.y1 := min_le_min hy1 (le_refl _)
  have h2 : max b.y0 z.y0 ≤ max a.y0 z.y0 := max_le_max hy0 (le_refl _)
  linarith

theorem clipStep_some_vertSub {A : ℚ} {m z m1 : Rect} (h : clipStep A m z = some m1) :
    vertSub m1 m := by
  simp only [clipStep] at h
  split at h
  · split at h
    · exact Option.noConfusion h
    · rw [Option.some.injEq] at h
      subst h
      refine ⟨rfl, rfl, ?_, ?_⟩
      · dsimp only
        split
        · split
          · next hc => exact le_of_lt hc.2
          · exact le_refl _
        · split
          · next hc => exact le_of_lt hc.2
          · exact le_refl _
      · dsimp only
        split
        · next hc => exact le_of_lt hc.2
        · exact le_refl _
  · rw [Option.some.injEq] at h
    subst h
    exact vertSub_refl _

theorem clipStep_none_of_lt {A : ℚ} {m z : Rect} (hA : 0 < A)
    (hgt : (3/10) * A < interArea m z) : clipStep A m z = none := by
  have hpos : 0 < interArea m z := lt_of_le_of_lt (by positivity) hgt
  have hx : 0 < min m.x1 z.x1 - max m.x0 z.x0 := by
    by_contra hc
    push_neg at hc
    have : max 0 (min m.x1 z.x1 - max m.x0 z.x0) = 0 := max_eq_left hc
    rw [interArea, this, zero_mul] at hpos
    exact lt_irrefl 0 hpos
  have hy : 0 < min m.y1 z.y1 - max m.y0 z.y0 := by
    by_contra hc
    push_neg at hc
    have : max 0 (min m.y1 z.y1 - max m.y0 z.y0) = 0 := max_eq_left hc
    rw [interArea, this, mul_zero] at hpos
    exact lt_irrefl 0 hpos
  have hIA : interArea m z =
      (min m.x1 z.x1 - max m.x0 z.x0) * (min m.y1 z.y1 - max m.y0 z.y0) := by
    rw [interArea, max_eq_right (le_of_lt hx), max_eq_right (le_of_lt hy)]
  simp only [clipStep]
  rw [if_pos ⟨by linarith, by linarith⟩, if_pos]
  rw [gt_iff_lt, lt_div_iff₀ hA]
  calc (3/10) * A < interArea m z := hgt
    _ = _ := hIA

theorem clipStep_some_ratio {A : ℚ} {m z m1 : Rect} (hA : 0 < A)
    (h : clipStep A m z = some m1) : interArea m z ≤ (3/10) * A := by
  by_contra hc
  push_neg at hc
  rw [clipStep_none_of_lt hA hc] at h
  exact Option.noConfusion h

theorem clipLoop_some_vertSub {A : ℚ} {m m1 : Rect} :
    ∀ {zs : List Rect}, clipLoop A m zs = some m1 → vertSub m1 m := by
  intro zs
  induction zs generalizing m with
  | nil =>
    intro h
    simp only [clipLoop, Option.some.injEq] at h
    subst h
    exact vertSub_refl _
  | cons z zs ih =>
    intro h
    simp only [clipLoop] at h
    cases hs : clipStep A m z with
    | none => rw [hs, Option.none_bind] at h; exact Option.noConfusion h
    | some m2 =>
      rw [hs, Option.some_bind] at h
      exact vertSub_trans (ih h) (clipStep_some_vertSub hs)

theorem clipLoop_mem_ratio {A : ℚ} (hA : 0 < A) {m m1 : Rect} :
    ∀ {zs : List Rect}, clipLoop A m zs = some m1 →
      ∀ z ∈ zs, interArea m1 z ≤ (3/10) * A := by
  intro zs
  induction zs generalizing m with
  | nil => intro _ z hz; exact absurd hz (List.not_mem_nil z)
  | cons z0 zs ih =>
    intro h z hz
    simp only [clipLoop] at h
    cases hs : clipStep A m z0 with
    | none => rw [hs, Option.none_bind] at h; exact Option.noConfusion h
    | some m2 =>
      rw [hs, Option.some_bind] at h
      rcases List.mem_cons.mp hz with rfl | hmem
      · calc interArea m1 z ≤ interArea m2 z := interArea_mono z (clipLoop_some_vertSub h)
          _ ≤ interArea m z := interArea_mono z (clipStep_some_vertSub hs)
          _ ≤ (3/10) * A := clipStep_some_ratio hA hs
      · exact ih h z hmem

theorem clipMask_some_props {mask : Rect} {zones : List Rect} {m : Rect}
    (h : clipMaskAroundProtected mask zones = some m) :
    vertSub m mask ∧ 5 ≤ m.y1 - m.y0 ∧ 0 < rectArea mask := by
  simp only [clipMaskAroundProtected] at h
  split at h
  · exact Option.noConfusion h
  · have hA : 0 < rectArea mask := lt_of_not_le (by assumption)
    cases hl : clipLoop (rectArea mask) mask zones with
    | none => rw [hl, Option.none_bind] at h; exact Option.noConfusion h
    | some m2 =>
      rw [hl, Option.some_bind] at h
      split at h
      · exact Option.noConfusion h
      · rw [Option.some.injEq] at h
        subst h
        exact ⟨clipLoop_some_vertSub hl, le_of_not_lt (by assumption), hA⟩

theorem clipMask_some_ratio {mask : Rect} {zones : List Rect} {m : Rect}
    (h : clipMaskAroundProtected mask zones = some m) :
    ∀ z ∈ zones, interArea m z ≤ (3/10) * rectArea mask := by
  simp only [clipMaskAroundProtected] at h
  split at h
  · exact Option.noConfusion h
  · have hA : 0 < rectArea mask := lt_of_not_le (by assumption)
    cases hl : clipLoop (rectArea mask) mask zones with
    | none => rw [hl, Option.none_bind] at h; exact Option.noConfusion h
    | some m2 =>
      rw [hl, Option.some_bind] at h
      split at h
      · exact Option.noConfusion h
      · rw [Option.some.injEq] at h
        subst h
        exact clipLoop_mem_ratio hA hl

/-! ### String primitives

Lean string functions built on `Substring` positions do not reduce well in
proofs, so the Python string primitives (`in`, `strip()`, `lower()`,
`startswith`, `endswith`, `count(" ")`) are modelled directly on the
character list of the string. -/

/-- `charsLead p s`: the list `p` is an initial segment of `s`. -/
def charsLead : List Char → List Char → Bool
  | [], _ => true
  | _ :: _, [] => false
  | p :: ps, c :: cs => p = c && charsLead ps cs

/-- `charsHave p s`: the list `p` occurs contiguously somewhere in `s`. -/
def charsHave (pat : List Char) : List Char → Bool
  | [] => charsLead pat []
  | c :: cs => charsLead pat (c :: cs) || charsHave pat cs

/-- Python `pat in s` (substring containment). -/
def containsSub (s pat : String) : Bool := charsHave pat.data s.data

/-- Python `s.strip()`. -/
def strTrim (s : String) : String :=
  ⟨((s.data.dropWhile Char.isWhitespace).reverse.dropWhile Char.isWhitespace).reverse⟩

/-- Python `s.lower()` (ASCII range). -/
def strLower (s : String) : String := ⟨s.data.map Char.toLower⟩

/-- Python `s.startswith(pat)`. -/
def startsWithStr (s pat : String) : Bool := charsLead pat.data s.data

/-- Python `s.endswith(pat)`. -/
def endsWithStr (s pat : String) : Bool := charsLead pat.data.reverse s.data.reverse

/-- Python `s.count(" ")` (single-character needle, so this is the number
of space characters). -/
def countSpaces (s : String) : Nat := (s.data.filter (fun c => c = ' ')).length

/-! ### The math-formula heuristic `PDFParser._is_math_block` -/

/-- Math-only font families (`math_fonts` in the source). -/
def mathFontNames : List String :=
  ["cmmi", "cmsy", "cmex", "msbm", "wasy", "dsrom", "euclid", "stix"]

/-- Body-text font families (`body_fonts` in the source). -/
def bodyFontNames : List String :=
  ["nimbus", "arial", "helvetica", "times", "calibri"]

/-- The operator-glyph list `math_indicators` of the source.  Note that it
contains `∇` and does not contain `∈`. -/
def mathIndicators : List String :=
  [":=", "≈", "≠", "≤", "≥", "∑", "∫", "∂", "∇", "√", "∏"]

/-- `piecewise_keywords` of the source. -/
def piecewiseKeywords : List String := ["If on", "Otherwise", "adaptation using SE"]

/-- The `is_likely_text` computation inside `_is_math_block` (only reached
when a math font is present).  `alpha_count` is counted over the text with
spaces removed, while the denominator is the full text length. -/
def isLikelyText (t : String) : Bool :=
  let noSpace := t.data.filter (fun c => c ≠ ' ')
  let alphaCount := (noSpace.filter Char.isAlpha).length
  if 0 < t.length ∧ (3/5 : ℚ) < (alphaCount : ℚ) / (t.length : ℚ) then
    if containsSub (strTrim t) " " then true
    else if t.length < 5 then false
    else true
  else false

/-- `PDFParser._is_math_block`, over the joined span text and the list of
span font names of the block. -/
def isMathBlock (fonts : List String) (text : String) : Bool :=
  let t := strTrim text
  if t = "" then false
  -- paragraph detection: `if len(text) > 150 and text.count(" ") > 5: return False`
  else if 150 < t.length ∧ 5 < countSpaces t then false
  else
    let fs := fonts.map strLower
    let hasMathFont := fs.any (fun f => mathFontNames.any (fun mf => containsSub f mf))
    let hasBodyFont := fs.any (fun f => bodyFontNames.any (fun bf => containsSub f bf))
    if hasMathFont ∧ ¬hasBodyFont then true
    else if hasMathFont ∧ ¬isLikelyText t then true
    else if containsSub t "LRL" ∧ (containsSub t "(" ∨ containsSub t "=") ∧ t.length < 100 then
      true
    else if piecewiseKeywords.any (fun kw => containsSub t kw) ∧
        "()=012".data.any (fun c => t.data.contains c) then
      true
    else if mathIndicators.any (fun m => containsSub t m) then true
    else if t.length < 5 then
      if t.data.any (fun c => c.isDigit ∨ "+-*/=<>(){}[],.".data.contains c) then true
      else if t.length = 1 ∧ t.data.all Char.isAlpha then true
      else false
    else false

example : isMathBlock ["times"] "x ∈ y" = false := by decide
example : isMathBlock ["times"] "a ≤ b" = true := by decide
example : isMathBlock [] "(1)" = true := by decide

/-! ### The pure-formula heuristic `BlockClassifier._is_pure_formula` -/

/-- `sentence_indicators` of the source. -/
def sentenceIndicators : List String :=
  [" is ", " are ", " was ", " were ", " have ", " has ",
   " can ", " will ", " should ", " may ", " might ",
   " the ", " a ", " an ", " this ", " that ", " these ",
   " we ", " our ", " they ", " it ", " its ",
   " where ", " which ", " when ", " how ", " what ",
   " denote ", " denotes ", " represent ", " represents ",
   " compute ", " define ", " ensure ", " consider "]

/-- `math_chars` of the source (rule 5 of `_is_pure_formula`). -/
def mathCharList : List Char :=
  "₀₁₂₃₄₅₆₇₈₉⁰¹²³⁴⁵⁶⁷⁸⁹≤≥≠≈∈∑∫∂αβγδεζηθικλμνξπρστυφχψω{}[]()=+-*/_^".data

/-- Python `text[0].isupper()` (never reached on the empty string, because
rule 1 returns first). -/
def headIsUpper (t : String) : Bool :=
  match t.data with
  | [] => false
  | c :: _ => c.isUpper

/-- `BlockClassifier._is_pure_formula`: `true` means the block is treated
as a pure formula / short label and is forced to PRESERVE (protected). -/
def isPureFormula (text : String) : Bool :=
  let t := strTrim text
  -- rule 1: very short text is a label or symbol
  if t.length < 15 then true
  -- rule 2: sentence indicators mean descriptive prose
  else if sentenceIndicators.any (fun ind => containsSub (strLower t) ind) then false
  -- rule 3: capitalised sentence with a period
  else if headIsUpper t ∧ containsSub t ". " then false
  -- rule 4: long text is a descriptive paragraph
  else if 100 < t.length then false
  -- rule 5: short symbol-heavy text
  else if t.length < 50 then
    if ((t.data.filter (fun c => mathCharList.contains c ∨ ¬c.isAlpha)).length : ℚ) /
        (max t.length 1 : ℚ) > 1/2 then true
    else false
  else false

example : isPureFormula "x-axis" = true := by decide
example : isPureFormula "a is b" = true := by decide
example : isPureFormula "the quick brown fox jumps over the lazy dog" = false := by decide

/-! ### Text blocks and the merger `PDFParser._merge_text_blocks` -/

/-- A processed text block (the dict produced by `_process_text_block`,
plus the span font names used by the math heuristic and the
`rewritten_text` attached later by the rewriting stage). -/
structure Block where
  text : String
  bbox : Rect
  rotation : ℤ
  style : String
  fonts : List String
  rewritten : Option String
deriving DecidableEq, Repr

/-- The merge of two blocks: coordinate-wise bbox union, texts joined with
a newline, all other fields (id, style, rotation, ...) kept from the first
block. -/
def mergeTwo (cur nb : Block) : Block :=
  { cur with
    bbox := ⟨min cur.bbox.x0 nb.bbox.x0, min cur.bbox.y0 nb.bbox.y0,
             max cur.bbox.x1 nb.bbox.x1, max cur.bbox.y1 nb.bbox.y1⟩,
    text := cur.text ++ "\n" ++ nb.text }

/-- The linear walk of `_merge_text_blocks` over the sorted list, carrying
the current accumulating block.  The condition is `should_merge` verbatim:
`v_gap >= -5.0 and v_gap < 15.0 and h_align_diff < 15.0 and same rotation
and combined_len < 500`. -/
def mergeLoop (cur : Block) : List Block → List Block
  | [] => [cur]
  | nb :: rest =>
    if -5 ≤ nb.bbox.y0 - cur.bbox.y1 ∧ nb.bbox.y0 - cur.bbox.y1 < 15 ∧
        |nb.bbox.x0 - cur.bbox.x0| < 15 ∧ cur.rotation = nb.rotation ∧
        cur.text.length + nb.text.length < 500 then
      mergeLoop (mergeTwo cur nb) rest
    else cur :: mergeLoop nb rest

/-- Stable insertion into a list sorted by ascending `bbox.y0` (equal keys
keep their original relative order, as Python `sorted` is stable). -/
def insertByY (b : Block) : List Block → List Block
  | [] => [b]
  | c :: rest => if c.bbox.y0 ≤ b.bbox.y0 then c :: insertByY b rest else b :: c :: rest

/-- Stable sort by ascending `bbox.y0`, modelling
`sorted(blocks, key=lambda b: b["bbox"][1])`. -/
def sortByY : List Block → List Block
  | [] => []
  | b :: rest => insertByY b (sortByY rest)

/-- Start of the walk: an empty list stays empty, otherwise the first
sorted block seeds the accumulator. -/
def mergeStart : List Block → List Block
  | [] => []
  | b :: rest => mergeLoop b rest

/-- `PDFParser._merge_text_blocks`. -/
def mergeTextBlocks (blocks : List Block) : List Block :=
  mergeStart (sortByY blocks)

/-! ### The builder `PDFBuilder._render_text_block` -/

/-- `text = block.get("rewritten_text") or block.get("text", "")`: the
rewritten text when present and non-empty (Python `or` treats the empty
string as falsy), otherwise the original text. -/
def effText (b : Block) : String :=
  match b.rewritten with
  | some s => if s = "" then b.text else s
  | none => b.text

/-- The candidate mask: the block bbox expanded by 1pt on each side. -/
def expandBBox (b : Rect) : Rect := ⟨b.x0 - 1, b.y0 - 1, b.x1 + 1, b.y1 + 1⟩

/-- The semantic-tag chain of `_render_text_block`: an exactly wrapped
`<h1>`/`<h2>`/`<h3>`/`<caption>` pair overrides the style and is stripped
from the displayed text (Python slices `text[4:-5]` and `text[9:-10]`). -/
def stripTag (style text : String) : String × String :=
  if startsWithStr text "<h1>" ∧ endsWithStr text "</h1>" then ("h1", (text.drop 4).dropRight 5)
  else if startsWithStr text "<h2>" ∧ endsWithStr text "</h2>" then
    ("h2", (text.drop 4).dropRight 5)
  else if startsWithStr text "<h3>" ∧ endsWithStr text "</h3>" then
    ("h3", (text.drop 4).dropRight 5)
  else if startsWithStr text "<caption>" ∧ endsWithStr text "</caption>" then
    ("caption", (text.drop 9).dropRight 10)
  else (style, text)

/-- What `_render_text_block` draws for one block: the painted opaque mask
rectangle (in top-left-origin coordinates, as `mask_bbox`), the style
actually used, and the text handed to `_fit_text_to_box`. -/
structure RenderedBlock where
  mask : Rect
  style : String
  displayedText : String
deriving DecidableEq, Repr

/-- `PDFBuilder._render_text_block`: skips rotated blocks, blocks with no
text, and blocks whose mask is clipped away; `_clip_mask_around_protected`
is only invoked when the zone list is non-empty (`if protected_zones:`). -/
def renderTextBlock (b : Block) (zones : List Rect) : Option RenderedBlock :=
  if b.rotation ≠ 0 then none
  else if effText b = "" then none
  else
    let mask0 := expandBBox b.bbox
    let clipped := if zones = [] then some mask0 else clipMaskAroundProtected mask0 zones
    clipped.map (fun mask =>
      ⟨mask, (stripTag b.style (effText b)).1, (stripTag b.style (effText b)).2⟩)

/-! ### Links: `PDFBuilder._render_links` and the parser side -/

/-- A hyperlink as PyMuPDF reports it: the `from` rectangle in top-left
origin coordinates, the link `kind` (2 = URI, 1/4 = internal), the URI and
the target page index when present.  `hasText` models a truthy `text` key
(such links are skipped to avoid double annotation). -/
structure PLink where
  hasText : Bool
  rect : Rect
  kind : ℤ
  uri : Option String
  target : Option ℤ
deriving DecidableEq, Repr

/-- An annotation written to the output page by the builder. -/
inductive OutLink where
  | uriLink : String → Rect → OutLink
  | destLink : String → Rect → OutLink
deriving DecidableEq, Repr

/-- `PDFBuilder._render_links` over one page: flips the rectangle to
bottom-left origin (`[x0, H - y1, x1, H - y0]`) and writes a URI link for
kind 2 or a named-destination link `page_{target}` for kinds 1 and 4. -/
def renderLinks (height : ℚ) (links : List PLink) : List OutLink :=
  links.filterMap (fun l =>
    if l.hasText then none
    else
      let r : Rect := ⟨l.rect.x0, height - l.rect.y1, l.rect.x1, height - l.rect.y0⟩
      if l.kind = 2 then l.uri.map (fun u => OutLink.uriLink u r)
      else if l.kind = 1 ∨ l.kind = 4 then
        l.target.map (fun p => OutLink.destLink ("page_" ++ toString p) r)
      else none)

/-! ### The page pipeline: `PDFParser.parse` and `PDFBuilder.build` -/

/-- The data of one input PDF page as the underlying library exposes it:
page size, the processed raw text blocks, the layout-model boxes
`(label, bbox)`, and the hyperlinks present on the page.  The parser never
reads `pageLinks` (`page_links = []` in the source). -/
structure InPage where
  width : ℚ
  height : ℚ
  blocks : List Block
  layoutBoxes : List (String × Rect)
  pageLinks : List PLink
deriving DecidableEq, Repr

/-- One `PageLayout` as built by `PDFParser.parse`. -/
structure PageLayout where
  width : ℚ
  height : ℚ
  textBlocks : List Block
  links : List PLink
  pageIndex : ℕ
  protectedZones : List Rect
deriving DecidableEq, Repr

/-- The zone-overlap test of the parser: drop a block whose intersection
with a protected zone exceeds 50% of the block area. -/
def overlapsHalf (b z : Rect) : Bool :=
  if rectArea b * (1/2) < interArea b z then true else false

/-- The per-block filter chain of `PDFParser.parse`: header/footer bands
(top and bottom 5% of the page height), protected-zone overlap, the math
heuristic, and `_process_text_block` returning `None` on empty text. -/
def keepBlock (height : ℚ) (zones : List Rect) (b : Block) : Bool :=
  if b.bbox.y0 < height * (1/20) ∨ height * (19/20) < b.bbox.y1 then false
  else if zones.any (overlapsHalf b.bbox) then false
  else if isMathBlock b.fonts b.text then false
  else if strTrim b.text = "" then false
  else true

/-- One iteration of the page loop of `PDFParser.parse`: protected zones
are the Table/Figure layout boxes, blocks are filtered and merged, and the
link list is left empty (`page_links = []`). -/
def parsePage (p : InPage) (idx : ℕ) : PageLayout :=
  let zones := (p.layoutBoxes.filter (fun lb => lb.1 = "Table" ∨ lb.1 = "Figure")).map Prod.snd
  { width := p.width,
    height := p.height,
    textBlocks := mergeTextBlocks (p.blocks.filter (keepBlock p.height zones)),
    links := [],
    pageIndex := idx,
    protectedZones := zones }

/-- An input document: the ordered pages of the PDF. -/
structure InDoc where
  pages : List InPage
deriving DecidableEq, Repr

/-- `PDFParser.parse`: one `PageLayout` per input page, with 0-based page
indices, regardless of the page contents. -/
def parseDoc (d : InDoc) : List PageLayout :=
  d.pages.enum.map (fun ip => parsePage ip.2 ip.1)

/-- One output page as `PDFBuilder._render_page` paints it: the page size
set by `setPageSize`, the page bookmark, the rendered blocks, and the link
annotations. -/
structure OutPage where
  width : ℚ
  height : ℚ
  bookmark : String
  drawnBlocks : List RenderedBlock
  drawnLinks : List OutLink
deriving DecidableEq, Repr

/-- `PDFBuilder._render_page`. -/
def renderPage (p : PageLayout) : OutPage :=
  { width := p.width,
    height := p.height,
    bookmark := "page_" ++ toString p.pageIndex,
    drawnBlocks := p.textBlocks.filterMap (fun b => renderTextBlock b p.protectedZones),
    drawnLinks := renderLinks p.height p.links }

/-- `PDFBuilder.build`: renders every page in order. -/
def build (pages : List PageLayout) : List OutPage :=
  pages.map renderPage

/-! ### The font-size search `PDFBuilder._fit_text_to_box`

The wrapped-paragraph height computed by the underlying text library for a
given font size is abstracted as a function `wrapH : ℚ → ℚ`.  The loop
starts at the nominal style size, decrements by the default `font_step`
0.5pt while the wrapped height exceeds the box height, and stops at the
default `min_font_size` 4pt; when no tried size fits, the paragraph built
in the last executed iteration (the smallest tried size) is drawn anyway,
under a clip path.  `fitFontSize` returns the font size of the paragraph
that is actually drawn, or `none` when the loop body never runs
(`p is None`). -/

/-- Termination measure of the size loop: the number of remaining
half-point decrements before the 4pt floor fails. -/
def fuelOf (s : ℚ) : ℕ := (⌈2 * s⌉ - 7).toNat

theorem fuelOf_lt {s : ℚ} (h : 4 ≤ s) : fuelOf (s - 1/2) < fuelOf s := by
  have h8 : (8 : ℤ) ≤ ⌈2 * s⌉ := by
    have : ((8 : ℤ) : ℚ) ≤ 2 * s := by push_cast; linarith
    calc (8 : ℤ) = ⌈((8 : ℤ) : ℚ)⌉ := by rw [Int.ceil_intCast]
      _ ≤ ⌈2 * s⌉ := Int.ceil_le_ceil this
  have hceil : ⌈2 * (s - 1/2)⌉ = ⌈2 * s⌉ - 1 := by
    have : 2 * (s - 1/2) = 2 * s - (1 : ℤ) := by push_cast; ring
    rw [this, Int.ceil_sub_int]
  unfold fuelOf
  rw [hceil]
  omega

/-- The `while current_font_size >= min_font_size` loop of
`_fit_text_to_box` with the default floor 4pt and step 0.5pt. -/
def fitFontSize (wrapH : ℚ → ℚ) (height : ℚ) (size : ℚ) : Option ℚ :=
  if h : 4 ≤ size then
    if wrapH size ≤ height then some size
    else
      match fitFontSize wrapH height (size - 1/2) with
      | some s => some s
      | none => some size
  else none
termination_by fuelOf size
decreasing_by exact fuelOf_lt h

theorem fitFontSize_none {wrapH : ℚ → ℚ} {height size : ℚ}
    (h : fitFontSize wrapH height size = none) : ¬ 4 ≤ size := by
  intro h4
  rw [fitFontSize, dif_pos h4] at h
  split at h
  · exact Option.noConfusion h
  · split at h <;> exact Option.noConfusion h

theorem fitFontSize_bounds :
    ∀ (n : ℕ) (wrapH : ℚ → ℚ) (height size s : ℚ), fuelOf size ≤ n →
      fitFontSize wrapH height size = some s →
      4 ≤ s ∧ s ≤ size ∧ (wrapH s ≤ height ∨ s < 9/2) := by
  intro n
  induction n with
  | zero =>
    intro wrapH height size s hn h
    by_cases h4 : 4 ≤ size
    · exfalso
      have := fuelOf_lt h4
      omega
    · rw [fitFontSize, dif_neg h4] at h
      exact Option.noConfusion h
  | succ n ih =>
    intro wrapH height size s hn h
    by_cases h4 : 4 ≤ size
    · rw [fitFontSize, dif_pos h4] at h
      split at h
      · rw [Option.some.injEq] at h
        subst h
        exact ⟨h4, le_refl _, Or.inl (by assumption)⟩
      · cases hr : fitFontSize wrapH height (size - 1/2) with
        | some t =>
          rw [hr] at h
          simp only [Option.some.injEq] at h
          subst h
          have hfuel : fuelOf (size - 1/2) ≤ n := by
            have := fuelOf_lt h4
            omega
          obtain ⟨hb1, hb2, hb3⟩ := ih wrapH height (size - 1/2) t hfuel hr
          exact ⟨hb1, by linarith, hb3⟩
        | none =>
          rw [hr] at h
          simp only [Option.some.injEq] at h
          subst h
          have hlow := fitFontSize_none hr
          push_neg at hlow
          exact ⟨h4, le_refl _, Or.inr (by linarith)⟩
    · rw [fitFontSize, dif_neg h4] at h
      exact Option.noConfusion h

/-- Appending zone lists composes the clipping loop. -/
theorem clipLoop_append (A : ℚ) (m : Rect) (xs ys : List Rect) :
    clipLoop A m (xs ++ ys) = (clipLoop A m xs).bind (fun m1 => clipLoop A m1 ys) := by
  induction xs generalizing m with
  | nil => simp [clipLoop]
  | cons x xs ih =>
    simp only [List.cons_append, clipLoop]
    cases clipStep A m x with
    | none => simp
    | some m2 => simp [ih]

/-! ### Claim theorems -/

/-- Claim C10: whenever `_clip_mask_around_protected` returns a rectangle
for an input mask of positive area, that rectangle is contained in the
input rectangle, keeps its horizontal extent (`x0`, `x1` unchanged), and
is at least 5 points high. -/
theorem C10_clip_shrinks_vertically (mask : Rect) (zones : List Rect) (m : Rect)
    (_hpos : 0 < rectArea mask)
    (h : clipMaskAroundProtected mask zones = some m) :
    m.x0 = mask.x0 ∧ m.x1 = mask.x1 ∧ mask.y0 ≤ m.y0 ∧ m.y1 ≤ mask.y1 ∧
      5 ≤ m.y1 - m.y0 := by
  obtain ⟨hsub, h5, _⟩ := clipMask_some_props h
  exact ⟨hsub.1, hsub.2.1, hsub.2.2.1, hsub.2.2.2, h5⟩

/-- Witness for C10 at a concrete input. -/
theorem C10_clip_shrinks_vertically_witness :
    (⟨0, 0, 12, 80⟩ : Rect).x0 = (⟨0, 0, 12, 100⟩ : Rect).x0 ∧
    (⟨0, 0, 12, 80⟩ : Rect).x1 = (⟨0, 0, 12, 100⟩ : Rect).x1 ∧
    (⟨0, 0, 12, 100⟩ : Rect).y0 ≤ (⟨0, 0, 12, 80⟩ : Rect).y0 ∧
    (⟨0, 0, 12, 80⟩ : Rect).y1 ≤ (⟨0, 0, 12, 100⟩ : Rect).y1 ∧
    (5 : ℚ) ≤ (⟨0, 0, 12, 80⟩ : Rect).y1 - (⟨0, 0, 12, 80⟩ : Rect).y0 :=
  C10_clip_shrinks_vertically ⟨0, 0, 12, 100⟩ [⟨0, 80, 12, 200⟩] ⟨0, 0, 12, 80⟩
    (by norm_num [rectArea])
    (by norm_num [clipMaskAroundProtected, clipLoop, clipStep, rectArea])

/-- Claim C1 (amended): every mask painted by `_render_text_block` has,
for each protected zone, intersection area at most 30% of the area of the
*candidate* mask (the bbox expanded by 1pt, before trimming).  The original
claim, with the ratio measured against the painted (trimmed) mask area, is
refuted by `C1_mask_overlap_counterexample`. -/
theorem C1_mask_overlap_bounded (b : Block) (zones : List Rect) (r : RenderedBlock)
    (z : Rect) (h : renderTextBlock b zones = some r) (hz : z ∈ zones) :
    interArea r.mask z ≤ (3/10) * rectArea (expandBBox b.bbox) := by
  simp only [renderTextBlock] at h
  split at h
  · exact Option.noConfusion h
  · split at h
    · exact Option.noConfusion h
    · by_cases he : zones = []
      · subst he
        exact absurd hz (List.not_mem_nil z)
      · rw [if_neg he, Option.map_eq_some'] at h
        obtain ⟨mask, hm, hr⟩ := h
        subst hr
        exact clipMask_some_ratio hm z hz

/-- Witness for C1 at a concrete input. -/
theorem C1_mask_overlap_bounded_witness :
    interArea (⟨0, 0, 10, 80⟩ : Rect) ⟨0, 80, 10, 200⟩ ≤
      (3/10) * rectArea (expandBBox ⟨1, 1, 9, 99⟩) :=
  C1_mask_overlap_bounded ⟨"T", ⟨1, 1, 9, 99⟩, 0, "body", [], none⟩ [⟨0, 80, 10, 200⟩]
    ⟨⟨0, 0, 10, 80⟩, "body", "T"⟩ ⟨0, 80, 10, 200⟩
    (by
      have hT : ¬(("T" : String) = "") := by decide
      have hstrip : stripTag "body" "T" = ("body", "T") := by decide
      have hclip : clipMaskAroundProtected (expandBBox ⟨1, 1, 9, 99⟩) [⟨0, 80, 10, 200⟩] =
          some ⟨0, 0, 10, 80⟩ := by
        norm_num [clipMaskAroundProtected, clipLoop, clipStep, rectArea, expandBBox]
      simp [renderTextBlock, effText, hT, hclip, hstrip])
    (by simp)

/-- Counterexample to C1 as stated: with candidate mask `(0,0,10,100)`,
the first zone trims the mask to `(0,0,10,80)` (area 800) and the second
zone, spanning the full remaining height with width 3.5, overlaps the
painted mask by 280, i.e. 35% of the painted area — yet the mask is
painted, because the code divides by the area of the original candidate
mask (280/1000 = 28%). -/
theorem C1_mask_overlap_counterexample :
    renderTextBlock ⟨"T", ⟨1, 1, 9, 99⟩, 0, "body", [], none⟩
        [⟨0, 80, 10, 200⟩, ⟨0, -10, 7/2, 300⟩] =
      some ⟨⟨0, 0, 10, 80⟩, "body", "T"⟩ ∧
    (⟨0, -10, 7/2, 300⟩ : Rect) ∈ [(⟨0, 80, 10, 200⟩ : Rect), ⟨0, -10, 7/2, 300⟩] ∧
    (3/10) * rectArea ⟨0, 0, 10, 80⟩ < interArea ⟨0, 0, 10, 80⟩ ⟨0, -10, 7/2, 300⟩ := by
  refine ⟨?_, by simp, by norm_num [rectArea, interArea]⟩
  have hT : ¬(("T" : String) = "") := by decide
  have hstrip : stripTag "body" "T" = ("body", "T") := by decide
  have hclip : clipMaskAroundProtected (expandBBox ⟨1, 1, 9, 99⟩)
      [⟨0, 80, 10, 200⟩, ⟨0, -10, 7/2, 300⟩] = some ⟨0, 0, 10, 80⟩ := by
    norm_num [clipMaskAroundProtected, clipLoop, clipStep, rectArea, expandBBox]
  simp [renderTextBlock, effText, hT, hclip, hstrip]

/-- Claim C2 (amended): the skip check of `_render_text_block` is
sequential — the zones are processed in order while the mask is trimmed,
and the overlap that is compared against the 30% threshold is the
intersection of the *currently trimmed* mask with the zone, divided by the
area of the *original candidate* mask (bbox expanded by 1pt).  Part one:
if some zone fails that check, neither mask nor text is drawn.  Part two:
any mask that is drawn when zones are present keeps the candidate
horizontal extent, is vertically trimmed inside the candidate, and is at
least 5 points high.  The original claim (ratio measured between the
candidate mask and each zone in isolation) is refuted by
`C2_mask_skip_counterexample`. -/
theorem C2_mask_skip_and_trim :
    (∀ (b : Block) (zs1 zs2 : List Rect) (z : Rect) (m : Rect),
        clipLoop (rectArea (expandBBox b.bbox)) (expandBBox b.bbox) zs1 = some m →
        (3/10) * rectArea (expandBBox b.bbox) < interArea m z →
        renderTextBlock b (zs1 ++ z :: zs2) = none) ∧
    (∀ (b : Block) (zones : List Rect) (r : RenderedBlock),
        zones ≠ [] → renderTextBlock b zones = some r →
        r.mask.x0 = b.bbox.x0 - 1 ∧ r.mask.x1 = b.bbox.x1 + 1 ∧
        b.bbox.y0 - 1 ≤ r.mask.y0 ∧ r.mask.y1 ≤ b.bbox.y1 + 1 ∧
        5 ≤ r.mask.y1 - r.mask.y0) := by
  constructor
  · intro b zs1 zs2 z m hloop hgt
    have hne : ¬(zs1 ++ z :: zs2 = []) := by simp
    have hclip : clipMaskAroundProtected (expandBBox b.bbox) (zs1 ++ z :: zs2) = none := by
      simp only [clipMaskAroundProtected]
      by_cases hA0 : rectArea (expandBBox b.bbox) ≤ 0
      · rw [if_pos hA0]
      · rw [if_neg hA0]
        have hA : 0 < rectArea (expandBBox b.bbox) := lt_of_not_le hA0
        rw [clipLoop_append, hloop, Option.some_bind, clipLoop,
          clipStep_none_of_lt hA hgt, Option.none_bind, Option.none_bind]
    simp only [renderTextBlock]
    by_cases hrot : b.rotation ≠ 0
    · rw [if_pos hrot]
    · rw [if_neg hrot]
      by_cases htxt : effText b = ""
      · rw [if_pos htxt]
      · rw [if_neg htxt, if_neg hne, hclip, Option.map_none']
  · intro b zones r hne h
    simp only [renderTextBlock] at h
    by_cases hrot : b.rotation ≠ 0
    · rw [if_pos hrot] at h
      exact Option.noConfusion h
    · rw [if_neg hrot] at h
      by_cases htxt : effText b = ""
      · rw [if_pos htxt] at h
        exact Option.noConfusion h
      · rw [if_neg htxt, if_neg hne, Option.map_eq_some'] at h
        obtain ⟨mask, hm, hr⟩ := h
        subst hr
        obtain ⟨hsub, h5, _⟩ := clipMask_some_props hm
        refine ⟨?_, ?_, ?_, ?_, h5⟩
        · exact hsub.1
        · exact hsub.2.1
        · exact hsub.2.2.1
        · exact hsub.2.2.2

/-- Witness for C2 at concrete inputs: part one skips a block whose very
first zone overlaps the candidate mask by 60%; part two applied to the
mask painted for a candidate trimmed by one zone. -/
theorem C2_mask_skip_and_trim_witness :
    renderTextBlock ⟨"T", ⟨1, 1, 9, 99⟩, 0, "body", [], none⟩ [⟨0, 40, 10, 200⟩] = none ∧
    ((⟨0, 0, 10, 80⟩ : Rect).x0 = (1 : ℚ) - 1 ∧
     (⟨0, 0, 10, 80⟩ : Rect).x1 = (9 : ℚ) + 1 ∧
     (1 : ℚ) - 1 ≤ (⟨0, 0, 10, 80⟩ : Rect).y0 ∧
     (⟨0, 0, 10, 80⟩ : Rect).y1 ≤ (99 : ℚ) + 1 ∧
     (5 : ℚ) ≤ (⟨0, 0, 10, 80⟩ : Rect).y1 - (⟨0, 0, 10, 80⟩ : Rect).y0) := by
  constructor
  · exact C2_mask_skip_and_trim.1 ⟨"T", ⟨1, 1, 9, 99⟩, 0, "body", [], none⟩ [] []
      ⟨0, 40, 10, 200⟩ (expandBBox ⟨1, 1, 9, 99⟩) (by simp [clipLoop])
      (by norm_num [rectArea, interArea, expandBBox])
  · exact C2_mask_skip_and_trim.2 ⟨"T", ⟨1, 1, 9, 99⟩, 0, "body", [], none⟩ [⟨0, 80, 10, 200⟩]
      ⟨⟨0, 0, 10, 80⟩, "body", "T"⟩ (by simp)
      (by
        have hT : ¬(("T" : String) = "") := by decide
        have hstrip : stripTag "body" "T" = ("body", "T") := by decide
        have hclip : clipMaskAroundProtected (expandBBox ⟨1, 1, 9, 99⟩) [⟨0, 80, 10, 200⟩] =
            some ⟨0, 0, 10, 80⟩ := by
          norm_num [clipMaskAroundProtected, clipLoop, clipStep, rectArea, expandBBox]
        simp [renderTextBlock, effText, hT, hclip, hstrip])

/-- Counterexample to C2 as stated: the candidate mask `(0,0,10,100)`
overlaps the zone `(0,50,10,300)` by 500/1000 = 50% > 30%, so under the
claim the block must be skipped entirely; but the zone list
`[(0,80,10,200), (0,50,10,300)]` first trims the mask to `(0,0,10,80)`,
after which the second zone overlaps by only 300/1000 = 30%, so the code
paints a mask (trimmed further to `(0,0,10,50)`) and draws the text. -/
theorem C2_mask_skip_counterexample :
    renderTextBlock ⟨"T", ⟨1, 1, 9, 99⟩, 0, "body", [], none⟩
        [⟨0, 80, 10, 200⟩, ⟨0, 50, 10, 300⟩] =
      some ⟨⟨0, 0, 10, 50⟩, "body", "T"⟩ ∧
    (⟨0, 50, 10, 300⟩ : Rect) ∈ [(⟨0, 80, 10, 200⟩ : Rect), ⟨0, 50, 10, 300⟩] ∧
    (3/10) * rectArea (expandBBox ⟨1, 1, 9, 99⟩) <
      interArea (expandBBox ⟨1, 1, 9, 99⟩) ⟨0, 50, 10, 300⟩ := by
  refine ⟨?_, by simp, by norm_num [rectArea, interArea, expandBBox]⟩
  have hT : ¬(("T" : String) = "") := by decide
  have hstrip : stripTag "body" "T" = ("body", "T") := by decide
  have hclip : clipMaskAroundProtected (expandBBox ⟨1, 1, 9, 99⟩)
      [⟨0, 80, 10, 200⟩, ⟨0, 50, 10, 300⟩] = some ⟨0, 0, 10, 50⟩ := by
    norm_num [clipMaskAroundProtected, clipLoop, clipStep, rectArea, expandBBox]
  simp [renderTextBlock, effText, hT, hclip, hstrip]

/-- Claim C3: in the merge walk over blocks sorted by ascending top-y, the
current and next block are merged iff the vertical gap lies in `[-5, 15)`,
the left edges differ by less than 15pt, the rotations agree, and the
combined text length is under 500; a merge takes the coordinate-wise bbox
union and joins the texts with a newline, keeping style and rotation of
the first block; otherwise the blocks stay separate in sorted order.  The
last conjunct is the concrete scenario of the specification. -/
theorem C3_merge_walk :
    (∀ (cur nb : Block) (rest : List Block),
        (-5 ≤ nb.bbox.y0 - cur.bbox.y1 ∧ nb.bbox.y0 - cur.bbox.y1 < 15 ∧
         |nb.bbox.x0 - cur.bbox.x0| < 15 ∧ cur.rotation = nb.rotation ∧
         cur.text.length + nb.text.length < 500) →
        mergeLoop cur (nb :: rest) = mergeLoop (mergeTwo cur nb) rest) ∧
    (∀ (cur nb : Block) (rest : List Block),
        ¬(-5 ≤ nb.bbox.y0 - cur.bbox.y1 ∧ nb.bbox.y0 - cur.bbox.y1 < 15 ∧
          |nb.bbox.x0 - cur.bbox.x0| < 15 ∧ cur.rotation = nb.rotation ∧
          cur.text.length + nb.text.length < 500) →
        mergeLoop cur (nb :: rest) = cur :: mergeLoop nb rest) ∧
    (∀ cur nb : Block,
        (mergeTwo cur nb).bbox = ⟨min cur.bbox.x0 nb.bbox.x0, min cur.bbox.y0 nb.bbox.y0,
            max cur.bbox.x1 nb.bbox.x1, max cur.bbox.y1 nb.bbox.y1⟩ ∧
        (mergeTwo cur nb).text = cur.text ++ "\n" ++ nb.text ∧
        (mergeTwo cur nb).style = cur.style ∧
        (mergeTwo cur nb).rotation = cur.rotation) ∧
    mergeTextBlocks
        [⟨"aaaaaaaaaaaaaaaaaaaaaaaaaaaaaaaaaaaaaaaa", ⟨50, 100, 200, 120⟩, 0, "body", [], none⟩,
         ⟨"bbbbbbbbbbbbbbbbbbbbbbbbbbbbbbbbbbbbbbbb", ⟨50, 128, 210, 150⟩, 0, "body", [], none⟩] =
      [⟨"aaaaaaaaaaaaaaaaaaaaaaaaaaaaaaaaaaaaaaaa" ++ "\n" ++
          "bbbbbbbbbbbbbbbbbbbbbbbbbbbbbbbbbbbbbbbb",
        ⟨50, 100, 210, 150⟩, 0, "body", [], none⟩] := by
  refine ⟨?_, ?_, ?_, ?_⟩
  · intro cur nb rest hc
    simp only [mergeLoop]
    rw [if_pos hc]
  · intro cur nb rest hc
    simp only [mergeLoop]
    rw [if_neg hc]
  · intro cur nb
    exact ⟨rfl, rfl, rfl, rfl⟩
  · have hla : ("aaaaaaaaaaaaaaaaaaaaaaaaaaaaaaaaaaaaaaaa" : String).length = 40 := rfl
    have hlb : ("bbbbbbbbbbbbbbbbbbbbbbbbbbbbbbbbbbbbbbbb" : String).length = 40 := rfl
    norm_num [mergeTextBlocks, sortByY, insertByY, mergeStart, mergeLoop, mergeTwo, hla, hlb]

/-- Witness for C3 at the concrete scenario blocks. -/
theorem C3_merge_walk_witness :
    mergeLoop ⟨"aaaaaaaaaaaaaaaaaaaaaaaaaaaaaaaaaaaaaaaa", ⟨50, 100, 200, 120⟩, 0, "body", [], none⟩
        [⟨"bbbbbbbbbbbbbbbbbbbbbbbbbbbbbbbbbbbbbbbb", ⟨50, 128, 210, 150⟩, 0, "body", [], none⟩] =
      mergeLoop
        (mergeTwo
          ⟨"aaaaaaaaaaaaaaaaaaaaaaaaaaaaaaaaaaaaaaaa", ⟨50, 100, 200, 120⟩, 0, "body", [], none⟩
          ⟨"bbbbbbbbbbbbbbbbbbbbbbbbbbbbbbbbbbbbbbbb", ⟨50, 128, 210, 150⟩, 0, "body", [], none⟩)
        [] :=
  C3_merge_walk.1
    ⟨"aaaaaaaaaaaaaaaaaaaaaaaaaaaaaaaaaaaaaaaa", ⟨50, 100, 200, 120⟩, 0, "body", [], none⟩
    ⟨"bbbbbbbbbbbbbbbbbbbbbbbbbbbbbbbbbbbbbbbb", ⟨50, 128, 210, 150⟩, 0, "body", [], none⟩
    []
    ⟨by norm_num, by norm_num, by norm_num, rfl, by decide⟩

/-- Claim C4: the font-size search of `_fit_text_to_box` terminates (it is
a total function, by the decreasing measure `fuelOf`), and whenever a
paragraph is drawn its font size lies in `[4, nominal]`; moreover the
search stopped either because the wrapped height fits the box or because
the next half-point decrement would cross the 4pt floor. -/
theorem C4_font_size_loop (wrapH : ℚ → ℚ) (height size s : ℚ)
    (h : fitFontSize wrapH height size = some s) :
    4 ≤ s ∧ s ≤ size ∧ (wrapH s ≤ height ∨ s < 9/2) :=
  fitFontSize_bounds (fuelOf size) wrapH height size s (le_refl _) h

/-- Witness for C4: a 9pt body-style block that fits immediately. -/
theorem C4_font_size_loop_witness :
    (4 : ℚ) ≤ 9 ∧ (9 : ℚ) ≤ 9 ∧ ((3 : ℚ) ≤ 10 ∨ (9 : ℚ) < 9/2) :=
  C4_font_size_loop (fun _ => 3) 10 9 9 (by rw [fitFontSize]; norm_num)

/-- Claim C5 (amended): a block whose (stripped) text contains one of the
operator sequences of the code list `:=, ≈, ≠, ≤, ≥, ∑, ∫, ∂, ∇, √, ∏` is
classified as a math block, **provided** the text is not excluded by the
long-paragraph early exit (more than 150 characters and more than 5
spaces).  The original claim is refuted by `C5_math_glyphs_counterexample`:
the code list does not contain `∈`, and the long-paragraph exit overrides
the glyph rule, so neither "contains ∈" nor "regardless of length" holds. -/
theorem C5_math_glyphs_protected (fonts : List String) (text : String)
    (hind : mathIndicators.any (fun m => containsSub (strTrim text) m) = true)
    (hpar : ¬(150 < (strTrim text).length ∧ 5 < countSpaces (strTrim text))) :
    isMathBlock fonts text = true := by
  have hne : ¬(strTrim text = "") := by
    intro h0
    rw [h0] at hind
    revert hind
    decide
  simp only [isMathBlock]
  rw [if_neg hne, if_neg hpar]
  split
  · rfl
  · split
    · rfl
    · split
      · rfl
      · split
        · rfl
        · rfl

/-- Witness for C5: the isolated relation "a ≤ b". -/
theorem C5_math_glyphs_protected_witness :
    isMathBlock ["times"] "a ≤ b" = true :=
  C5_math_glyphs_protected ["times"] "a ≤ b" (by decide) (by decide)

/-- Counterexample to C5 as stated: the text "x ∈ y" contains the glyph
`∈` from the claimed operator list, but `_is_math_block` classifies it as
not-math, because `∈` is missing from the code list `math_indicators`. -/
theorem C5_math_glyphs_counterexample :
    containsSub (strTrim "x ∈ y") "∈" = true ∧ isMathBlock ["times"] "x ∈ y" = false := by
  constructor
  · decide
  · decide

/-- Claim C6 (amended): in `_is_pure_formula`, a text whose stripped form
is at least 15 characters long and contains a sentence-indicator
substring, or whose stripped form is longer than 100 characters, is
classified as not a pure formula (not protected, stays in the rewrite
pipeline).  The original claim is refuted by
`C6_sentence_override_counterexample`: the short-text rule (length < 15)
runs *before* the sentence-indicator override, so a short text containing
" is " is still classified protected. -/
theorem C6_sentence_override (text : String)
    (h : (15 ≤ (strTrim text).length ∧
          sentenceIndicators.any (fun ind => containsSub (strLower (strTrim text)) ind) = true) ∨
         100 < (strTrim text).length) :
    isPureFormula text = false := by
  have h15 : ¬((strTrim text).length < 15) := by
    rcases h with ⟨h1, _⟩ | h1 <;> omega
  simp only [isPureFormula]
  rw [if_neg h15]
  split
  · rfl
  · next hsent =>
    rcases h with ⟨_, hany⟩ | h100
    · exact absurd hany hsent
    · split
      · rfl
      · rfl

/-- Witness for C6: a 43-character sentence. -/
theorem C6_sentence_override_witness :
    isPureFormula "the quick brown fox jumps over the lazy dog" = false :=
  C6_sentence_override "the quick brown fox jumps over the lazy dog" (Or.inl ⟨by decide, by decide⟩)

/-- Counterexample to C6 as stated: "a is b" contains the sentence
indicator " is " yet `_is_pure_formula` classifies it as protected,
because the length-below-15 rule fires first. -/
theorem C6_sentence_override_counterexample :
    containsSub (strLower (strTrim "a is b")) " is " = true ∧
    isPureFormula "a is b" = true := by
  constructor
  · decide
  · decide

/-- Claim C7: the parser never extracts hyperlinks — `PDFParser.parse`
initialises `page_links = []` and never reads the links of the input page,
so every parsed page carries an empty link list and the builder draws no
link annotations, even for a page that does contain a URI hyperlink.  The
restoration side is implemented: fed the page link directly,
`_render_links` would produce the y-flipped rectangle
`[x0, H - y1, x1, H - y0]` with the URI kept verbatim.  (The first two
conjuncts evaluate the pipeline at the failing input; the third shows what
the claim expects for that link.) -/
theorem C7_links_never_extracted :
    (parsePage
        ⟨612, 792, [], [],
          [⟨false, ⟨100, 700, 200, 720⟩, 2, some "https://example.org", none⟩]⟩ 0).links = [] ∧
    (renderPage (parsePage
        ⟨612, 792, [], [],
          [⟨false, ⟨100, 700, 200, 720⟩, 2, some "https://example.org", none⟩]⟩ 0)).drawnLinks
      = [] ∧
    renderLinks 792 [⟨false, ⟨100, 700, 200, 720⟩, 2, some "https://example.org", none⟩] =
      [OutLink.uriLink "https://example.org" ⟨100, 72, 200, 92⟩] := by
  refine ⟨rfl, rfl, ?_⟩
  norm_num [renderLinks, List.filterMap]

/-- Claim C8: the output document has exactly one page per input page with
the same width and height, whatever the page contents; an empty document
yields an empty (still well-formed) output, and a page with no extractable
text still yields an output page (with no drawn blocks) of the same size. -/
theorem C8_page_count_and_dims (d : InDoc) :
    (build (parseDoc d)).map (fun p => (p.width, p.height)) =
      d.pages.map (fun p => (p.width, p.height)) ∧
    build (parseDoc ⟨[]⟩) = [] ∧
    build (parseDoc ⟨[⟨612, 792, [], [], []⟩]⟩) = [⟨612, 792, "page_0", [], []⟩] := by
  refine ⟨?_, rfl, ?_⟩
  · show (((d.pages.enum).map (fun ip => parsePage ip.2 ip.1)).map renderPage).map
        (fun p => (p.width, p.height)) = d.pages.map (fun p => (p.width, p.height))
    have key : ∀ (n : ℕ) (ps : List InPage),
        (((List.enumFrom n ps).map (fun ip => parsePage ip.2 ip.1)).map renderPage).map
          (fun p => (p.width, p.height)) = ps.map (fun p => (p.width, p.height)) := by
      intro n ps
      induction ps generalizing n with
      | nil => rfl
      | cons p ps ih =>
        simp only [List.enumFrom, List.map_cons, ih]
        rfl
    exact key 0 d.pages
  · rfl

/-- A successful prefix test pins down the first `p.length` characters. -/
theorem charsLead_take : ∀ {p s : List Char}, charsLead p s = true → s.take p.length = p := by
  intro p
  induction p with
  | nil => intro s _; rfl
  | cons a ps ih =>
    intro s h
    cases s with
    | nil => exact absurd h (by simp [charsLead])
    | cons c cs =>
      simp only [charsLead, Bool.and_eq_true, decide_eq_true_eq] at h
      obtain ⟨rfl, h2⟩ := h
      simp [List.take_succ_cons, ih h2]

/-- Two incompatible tag openers cannot both be prefixes of the same
text. -/
theorem startsWithStr_clash {s p q : String} (hlen : p.data.length ≤ q.data.length)
    (hne : q.data.take p.data.length ≠ p.data) (hq : startsWithStr s q = true) :
    startsWithStr s p = false := by
  by_contra hc
  rw [Bool.not_eq_false] at hc
  have hp := charsLead_take hc
  have hqt := charsLead_take hq
  apply hne
  rw [← hqt, List.take_take, min_eq_left hlen, hp]

/-- Any rendered block carries exactly the style and text computed by the
semantic-tag chain. -/
theorem renderTextBlock_strip {b : Block} {zones : List Rect} {r : RenderedBlock}
    (h : renderTextBlock b zones = some r) :
    r.style = (stripTag b.style (effText b)).1 ∧
    r.displayedText = (stripTag b.style (effText b)).2 := by
  simp only [renderTextBlock] at h
  by_cases hrot : b.rotation ≠ 0
  · rw [if_pos hrot] at h
    exact Option.noConfusion h
  · rw [if_neg hrot] at h
    by_cases htxt : effText b = ""
    · rw [if_pos htxt] at h
      exact Option.noConfusion h
    · rw [if_neg htxt, Option.map_eq_some'] at h
      obtain ⟨mask, _, hr⟩ := h
      subst hr
      exact ⟨rfl, rfl⟩

/-- Claim C9: when the effective text of a rendered block is exactly a
semantic tag pair (`<h1>`, `<h2>`, `<h3>` or `<caption>` at the start with
the matching closing tag at the end), the block is rendered with the tag
style instead of the size-inferred style, and the displayed text is the
text with the tags stripped (Python `text[4:-5]`, resp. `text[9:-10]`). -/
theorem C9_semantic_tag_override :
    (∀ (b : Block) (zones : List Rect) (r : RenderedBlock),
        renderTextBlock b zones = some r →
        startsWithStr (effText b) "<h1>" = true ∧ endsWithStr (effText b) "</h1>" = true →
        r.style = "h1" ∧ r.displayedText = ((effText b).drop 4).dropRight 5) ∧
    (∀ (b : Block) (zones : List Rect) (r : RenderedBlock),
        renderTextBlock b zones = some r →
        startsWithStr (effText b) "<h2>" = true ∧ endsWithStr (effText b) "</h2>" = true →
        r.style = "h2" ∧ r.displayedText = ((effText b).drop 4).dropRight 5) ∧
    (∀ (b : Block) (zones : List Rect) (r : RenderedBlock),
        renderTextBlock b zones = some r →
        startsWithStr (effText b) "<h3>" = true ∧ endsWithStr (effText b) "</h3>" = true →
        r.style = "h3" ∧ r.displayedText = ((effText b).drop 4).dropRight 5) ∧
    (∀ (b : Block) (zones : List Rect) (r : RenderedBlock),
        renderTextBlock b zones = some r →
        startsWithStr (effText b) "<caption>" = true ∧
          endsWithStr (effText b) "</caption>" = true →
        r.style = "caption" ∧ r.displayedText = ((effText b).drop 9).dropRight 10) := by
  refine ⟨?_, ?_, ?_, ?_⟩
  · intro b zones r h hp
    obtain ⟨hs, hd⟩ := renderTextBlock_strip h
    have hstrip : stripTag b.style (effText b) = ("h1", ((effText b).drop 4).dropRight 5) := by
      rw [stripTag, if_pos hp]
    simp only [hs, hd, hstrip]
    exact ⟨trivial, trivial⟩
  · intro b zones r h hp
    obtain ⟨hs, hd⟩ := renderTextBlock_strip h
    have hn1 : ¬(startsWithStr (effText b) "<h1>" = true ∧
        endsWithStr (effText b) "</h1>" = true) := by
      intro hcon
      have hcl := startsWithStr_clash (s := effText b) (p := "<h1>") (q := "<h2>")
        (by decide) (by decide) hp.1
      rw [hcon.1] at hcl
      exact Bool.noConfusion hcl
    have hstrip : stripTag b.style (effText b) = ("h2", ((effText b).drop 4).dropRight 5) := by
      rw [stripTag, if_neg hn1, if_pos hp]
    simp only [hs, hd, hstrip]
    exact ⟨trivial, trivial⟩
  · intro b zones r h hp
    obtain ⟨hs, hd⟩ := renderTextBlock_strip h
    have hn1 : ¬(startsWithStr (effText b) "<h1>" = true ∧
        endsWithStr (effText b) "</h1>" = true) := by
      intro hcon
      have hcl := startsWithStr_clash (s := effText b) (p := "<h1>") (q := "<h3>")
        (by decide) (by decide) hp.1
      rw [hcon.1] at hcl
      exact Bool.noConfusion hcl
    have hn2 : ¬(startsWithStr (effText b) "<h2>" = true ∧
        endsWithStr (effText b) "</h2>" = true) := by
      intro hcon
      have hcl := startsWithStr_clash (s := effText b) (p := "<h2>") (q := "<h3>")
        (by decide) (by decide) hp.1
      rw [hcon.1] at hcl
      exact Bool.noConfusion hcl
    have hstrip : stripTag b.style (effText b) = ("h3", ((effText b).drop 4).dropRight 5) := by
      rw [stripTag, if_neg hn1, if_neg hn2, if_pos hp]
    simp only [hs, hd, hstrip]
    exact ⟨trivial, trivial⟩
  · intro b zones r h hp
    obtain ⟨hs, hd⟩ := renderTextBlock_strip h
    have hn1 : ¬(startsWithStr (effText b) "<h1>" = true ∧
        endsWithStr (effText b) "</h1>" = true) := by
      intro hcon
      have hcl := startsWithStr_clash (s := effText b) (p := "<h1>") (q := "<caption>")
        (by decide) (by decide) hp.1
      rw [hcon.1] at hcl
      exact Bool.noConfusion hcl
    have hn2 : ¬(startsWithStr (effText b) "<h2>" = true ∧
        endsWithStr (effText b) "</h2>" = true) := by
      intro hcon
      have hcl := startsWithStr_clash (s := effText b) (p := "<h2>") (q := "<caption>")
        (by decide) (by decide) hp.1
      rw [hcon.1] at hcl
      exact Bool.noConfusion hcl
    have hn3 : ¬(startsWithStr (effText b) "<h3>" = true ∧
        endsWithStr (effText b) "</h3>" = true) := by
      intro hcon
      have hcl := startsWithStr_clash (s := effText b) (p := "<h3>") (q := "<caption>")
        (by decide) (by decide) hp.1
      rw [hcon.1] at hcl
      exact Bool.noConfusion hcl
    have hstrip : stripTag b.style (effText b) =
        ("caption", ((effText b).drop 9).dropRight 10) := by
      rw [stripTag, if_neg hn1, if_neg hn2, if_neg hn3, if_pos hp]
    simp only [hs, hd, hstrip]
    exact ⟨trivial, trivial⟩

/-- Witness for C9: the scenario of the specification, rewritten text
`"<h2>Results</h2>"` rendered with style h2 and displayed text
`"Results"`. -/
theorem C9_semantic_tag_override_witness :
    (⟨expandBBox ⟨0, 0, 100, 50⟩, "h2", "Results"⟩ : RenderedBlock).style = "h2" ∧
    (⟨expandBBox ⟨0, 0, 100, 50⟩, "h2", "Results"⟩ : RenderedBlock).displayedText =
      ((effText ⟨"orig", ⟨0, 0, 100, 50⟩, 0, "body", [], some "<h2>Results</h2>"⟩).drop 4).dropRight 5 := by
  have hr : renderTextBlock ⟨"orig", ⟨0, 0, 100, 50⟩, 0, "body", [], some "<h2>Results</h2>"⟩ [] =
      some ⟨expandBBox ⟨0, 0, 100, 50⟩, "h2", "Results"⟩ := by
    have hT : ¬(effText ⟨"orig", ⟨0, 0, 100, 50⟩, 0, "body", [], some "<h2>Results</h2>"⟩ = "") := by
      decide
    have hstrip : stripTag "body" "<h2>Results</h2>" = ("h2", "Results") := by decide
    simp [renderTextBlock, effText, hT, hstrip]
  exact C9_semantic_tag_override.2.1 _ [] _ hr (by decide)
